import Mathlib

/-!
Verification of the stock-MFS dashboard ingestion/reconciliation pipeline.

The development shallowly embeds the core pipeline of the repository:

* `transaction_processor.py` — `process_file` and `update_summary_upsert`
  (the file ingestor and the ledger upsert store);
* `reconcile_data.py` / `reconciliation_global.py` — `reconcile_data`
  (target-dataset aggregation, merge, derived metrics, history snapshot,
  failure handling);
* `auto_sync.py` — the drain/batch loop of `main` (batch-sync triggering).

Python strings are Lean `String`s, numeric cell values are `ℚ`, dataframes
are lists of records. Python's `float(...)` parser is kept abstract as a
parameter `pyFloat : String → Option ℚ` (`none` models a raised
`ValueError`); concrete runs instantiate it with `pyFloatDigits`, which
agrees with Python `float` on the nonempty all-digit strings used there.
-/

/-! ## Python string primitives -/

/-- The characters of a Python `str.strip()` result: leading and trailing
whitespace removed. -/
def pyStripList (l : List Char) : List Char :=
  ((l.dropWhile Char.isWhitespace).reverse.dropWhile Char.isWhitespace).reverse

/-- Python `s.strip()`. -/
def pyStrip (s : String) : String := ⟨pyStripList s.data⟩

/-- Python `needle in haystack` on strings: substring containment. -/
def pyIn (needle haystack : String) : Bool := decide (needle.data <:+: haystack.data)

/-- Python `s.startswith(pre)`. -/
def pyStartsWith (s pre : String) : Bool := decide (pre.data <+: s.data)

/-- Python `s.endswith(suf)`. -/
def pyEndsWith (s suf : String) : Bool := decide (suf.data <:+ s.data)

/-- Drop the first `n` characters of a string. -/
def strDrop (s : String) (n : ℕ) : String := ⟨s.data.drop n⟩

/-- Drop the last `n` characters of a string. -/
def strDropRight (s : String) (n : ℕ) : String := ⟨(s.data.reverse.drop n).reverse⟩

/-- Python `s.lower()` (ASCII case folding suffices for the names used here). -/
def strToLower (s : String) : String := ⟨s.data.map Char.toLower⟩

/-! ## Abstract numeral parsers

`parseNatDigits` interprets a nonempty all-digit string as its decimal
value; `pyFloatDigits` is the induced instantiation of the abstract
`float(...)` parameter, agreeing with Python `float` on such strings. -/

/-- Decimal value of a nonempty all-digit string, `none` otherwise. -/
def parseNatDigits (s : String) : Option ℕ :=
  if s.data ≠ [] ∧ s.data.all Char.isDigit then
    some (s.data.foldl (fun n c => 10 * n + (c.toNat - 48)) 0)
  else none

/-- A concrete instantiation of the abstract `float(...)` parameter, used by
witnesses: it parses exactly the nonempty all-digit strings, as Python
`float` would. -/
def pyFloatDigits (s : String) : Option ℚ := (parseNatDigits s).map (fun n => (n : ℚ))

/-! ## `transaction_processor.py`: the ledger store and the file ingestor -/

/-- One row of the summary ledger (`summary.xlsx`): columns
`Date, Number, Name, Balance`. -/
structure LedgerRow where
  date : String
  number : String
  name : String
  balance : ℚ
deriving DecidableEq

/-- `df['Number'] = df['Number'].astype(str).str.strip()` applied to one row. -/
def stripRow (r : LedgerRow) : LedgerRow := { r with number := pyStrip r.number }

/-- Number of ledger rows whose (stripped) `Number` equals `n` — the size of
`df[df['Number'] == n]` after the in-function normalisation. -/
def countKey (L : List LedgerRow) (n : String) : ℕ :=
  L.countP (fun r => pyStrip r.number == n)

/-- The first ledger row matching key `n` after normalisation — the row at
`df[mask].index[0]` in `update_summary_upsert`. -/
def findKey (L : List LedgerRow) (n : String) : Option LedgerRow :=
  (L.map stripRow).find? (fun r => r.number == n)

/-- `if name and name != "Unknown"` — the guard deciding whether an incoming
display name overwrites a stored one. -/
def goodIncomingName (nm : String) : Bool := !(nm == "") && !(nm == "Unknown")

/-- The update branch of `update_summary_upsert`: rewrite `Date` and `Balance`
of the first row matching `num` unconditionally, and `Name` only when the
incoming name passes `goodIncomingName`; all other rows are untouched. -/
def updateFirstMatch (M : List LedgerRow) (num date : String) (b : ℚ) (nm : String) :
    List LedgerRow :=
  match M with
  | [] => []
  | r :: rs =>
    if r.number == num then
      { r with
          date := date
          balance := b
          name := (if goodIncomingName nm then nm else r.name) } :: rs
    else r :: updateFirstMatch rs num date b nm

/-- `float(balance) if balance else 0`: an empty string is falsy and yields
`0`; a nonempty string goes through `float`, whose failure (`none`) models
the raised `ValueError`. -/
def coerceBal (pyFloat : String → Option ℚ) (bal : String) : Option ℚ :=
  if bal == "" then some 0 else pyFloat bal

/-- `update_summary_upsert(date, number, name, balance)` of
`transaction_processor.py`. The incoming number and the stored `Number`
column are stripped before comparison; on a `float(...)` failure the
enclosing `except` fires before `df.to_excel`, so the persisted ledger is the
unchanged input. -/
def updateSummaryUpsert (pyFloat : String → Option ℚ) (L : List LedgerRow)
    (date number nm bal : String) : List LedgerRow :=
  match coerceBal pyFloat bal with
  | none => L
  | some b =>
    let num := pyStrip number
    let M := L.map stripRow
    if M.any (fun r => r.number == num) then updateFirstMatch M num date b nm
    else M ++ [{ date := date, number := num, name := nm, balance := b }]

/-- `csv.DictReader` row lookup: a row is the association of header names to
cell strings; a duplicated header keeps its last occurrence, as a Python
dict built left to right does. -/
def rowGet (row : List (String × String)) (k : String) : Option String :=
  (row.filterMap (fun p => if p.1 == k then some p.2 else none)).getLast?

/-- `first_row.get(k, d)`. -/
def rowGetD (row : List (String × String)) (k d : String) : String := (rowGet row k).getD d

/-- Account-identifier extraction from the filename in `process_file`:
`startswith('Transactions_')`, `endswith('.csv')`, then
`re.search(r'Transactions_(\d+)\.csv', filename)`. The regex search is
modelled for filenames of the exact form `Transactions_<digits>.csv`
(prefix and suffix stripped, remainder required to be nonempty digits);
filenames that merely embed the pattern strictly inside are not modelled. -/
def extractNumber (filename : String) : Option String :=
  if pyStartsWith filename "Transactions_" && pyEndsWith filename ".csv" then
    let core := strDropRight (strDrop filename 13) 4
    if core.data ≠ [] ∧ core.data.all Char.isDigit then some core else none
  else none

/-- The display-name resolution of `process_file` (lines 48–59): pick
`From name` when the account number occurs in the `From` field, else
`To name` when it occurs in the `To` field, else fall back to the
`From name` field with default `"Unknown"`. -/
def nameOf (number : String) (row : List (String × String)) : String :=
  if pyIn number (rowGetD row "From" "") then rowGetD row "From name" "Unknown"
  else if pyIn number (rowGetD row "To" "") then rowGetD row "To name" "Unknown"
  else rowGetD row "From name" "Unknown"

/-- `process_file` of `transaction_processor.py`, acting on the persisted
ledger. `firstRow = none` models an empty file (`next(reader, None)` is
`None`); the encoding fallback is not observable at this level because both
branches produce the same parsed first row. -/
def processFile (pyFloat : String → Option ℚ) (filename : String)
    (firstRow : Option (List (String × String))) (L : List LedgerRow) : List LedgerRow :=
  match extractNumber filename with
  | none => L
  | some number =>
    match firstRow with
    | none => L
    | some row =>
      match rowGet row "Date", rowGet row "Balance" with
      | some date, some bal => updateSummaryUpsert pyFloat L date number (nameOf number row) bal
      | _, _ => L

/-! ## Helper lemmas: `strip` idempotence and upsert characterisation -/

theorem dropWhile_head_false {α} (p : α → Bool) (l : List α) (a : α) (t : List α)
    (h : l.dropWhile p = a :: t) : p a = false := by
  induction l with
  | nil => simp at h
  | cons b s ih =>
    by_cases hb : p b
    · rw [List.dropWhile_cons_of_pos hb] at h; exact ih h
    · rw [List.dropWhile_cons_of_neg hb] at h
      cases h
      exact Bool.eq_false_iff.mpr hb

theorem dropWhile_idem {α} (p : α → Bool) (l : List α) :
    (l.dropWhile p).dropWhile p = l.dropWhile p := by
  induction l with
  | nil => simp
  | cons a s ih =>
    by_cases ha : p a
    · rw [List.dropWhile_cons_of_pos ha]; exact ih
    · rw [List.dropWhile_cons_of_neg ha, List.dropWhile_cons_of_neg ha]

theorem dropWhile_eq_self_of_prefix {α} (p : α → Bool) (x m : List α)
    (hpre : x <+: m) (hm : m.dropWhile p = m) : x.dropWhile p = x := by
  cases x with
  | nil => rfl
  | cons a t =>
    obtain ⟨s, hs⟩ := hpre
    have ha : p a = false := by
      by_contra hpa
      have hpa' : p a = true := by
        cases h : p a
        · exact absurd h hpa
        · rfl
      rw [← hs, List.cons_append, List.dropWhile_cons_of_pos hpa'] at hm
      have hlen := congrArg List.length hm
      have hle : ((t ++ s).dropWhile p).length ≤ (t ++ s).length :=
        (List.dropWhile_suffix p).sublist.length_le
      simp only [List.length_cons, List.length_append] at hlen hle
      omega
    exact List.dropWhile_cons_of_neg (by simp [ha])

theorem pyStripList_idem (l : List Char) : pyStripList (pyStripList l) = pyStripList l := by
  unfold pyStripList
  set p := Char.isWhitespace with hp
  set m := l.dropWhile p with hmdef
  set y := m.reverse.dropWhile p with hydef
  have hxm : y.reverse <+: m := by
    have h1 : y <:+ m.reverse := List.dropWhile_suffix p
    have h2 : y.reverse <+: m.reverse.reverse := List.reverse_prefix.mpr h1
    rwa [List.reverse_reverse] at h2
  have hmfix : m.dropWhile p = m := by rw [hmdef]; exact dropWhile_idem p l
  have hstep1 : (y.reverse).dropWhile p = y.reverse :=
    dropWhile_eq_self_of_prefix p _ m hxm hmfix
  rw [hstep1, List.reverse_reverse, hydef, dropWhile_idem]

theorem pyStrip_idem (s : String) : pyStrip (pyStrip s) = pyStrip s := by
  show (⟨pyStripList (pyStripList s.data)⟩ : String) = ⟨pyStripList s.data⟩
  rw [pyStripList_idem]

theorem stripRow_idem (r : LedgerRow) : stripRow (stripRow r) = stripRow r := by
  simp [stripRow, pyStrip_idem]

theorem countKey_map_strip (L : List LedgerRow) (n : String) :
    countKey (L.map stripRow) n = countKey L n := by
  unfold countKey
  rw [List.countP_map]
  apply List.countP_congr
  intro r _
  simp [stripRow, pyStrip_idem]

theorem countKey_updateFirstMatch (M : List LedgerRow) (num date : String) (b : ℚ)
    (nm : String) (n : String) :
    countKey (updateFirstMatch M num date b nm) n = countKey M n := by
  induction M with
  | nil => rfl
  | cons r rs ih =>
    unfold updateFirstMatch
    by_cases h : (r.number == num) = true
    · rw [if_pos h]
      unfold countKey
      rw [List.countP_cons, List.countP_cons]
    · rw [if_neg h]
      unfold countKey
      rw [List.countP_cons, List.countP_cons]
      unfold countKey at ih
      rw [ih]

theorem of_map_eq_self {α} (f : α → α) (l : List α) (h : l.map f = l) : ∀ a ∈ l, f a = a := by
  induction l with
  | nil => intro a ha; simp at ha
  | cons a t ih =>
    rw [List.map_cons] at h
    have h1 : f a = a := (List.cons.injEq _ _ _ _).mp h |>.1
    have h2 : t.map f = t := (List.cons.injEq _ _ _ _).mp h |>.2
    intro x hx
    rcases List.mem_cons.mp hx with rfl | hxt
    · exact h1
    · exact ih h2 x hxt

theorem strip_map_strip (L : List LedgerRow) : (L.map stripRow).map stripRow = L.map stripRow := by
  rw [List.map_map]
  have hcomp : stripRow ∘ stripRow = stripRow := funext stripRow_idem
  rw [hcomp]

theorem map_strip_updateFirstMatch (M : List LedgerRow) (num date : String) (b : ℚ)
    (nm : String) (hM : M.map stripRow = M) :
    (updateFirstMatch M num date b nm).map stripRow = updateFirstMatch M num date b nm := by
  induction M with
  | nil => rfl
  | cons r rs ih =>
    rw [List.map_cons] at hM
    have h1 : stripRow r = r := (List.cons.injEq _ _ _ _).mp hM |>.1
    have h2 : rs.map stripRow = rs := (List.cons.injEq _ _ _ _).mp hM |>.2
    have hnum : pyStrip r.number = r.number := congrArg LedgerRow.number h1
    unfold updateFirstMatch
    by_cases h : (r.number == num) = true
    · rw [if_pos h, List.map_cons, h2]
      congr 1
      simp [stripRow, hnum]
    · rw [if_neg h, List.map_cons, ih h2]
      congr 1

theorem upsert_stripped (pyFloat : String → Option ℚ) (L : List LedgerRow)
    (date number nm bal : String) (b : ℚ) (hb : coerceBal pyFloat bal = some b) :
    (updateSummaryUpsert pyFloat L date number nm bal).map stripRow
      = updateSummaryUpsert pyFloat L date number nm bal := by
  unfold updateSummaryUpsert
  rw [hb]
  dsimp only
  by_cases h : (L.map stripRow).any (fun r => r.number == pyStrip number) = true
  · rw [if_pos h]
    exact map_strip_updateFirstMatch _ _ _ _ _ (strip_map_strip L)
  · rw [if_neg h, List.map_append, strip_map_strip]
    congr 1
    simp [stripRow, pyStrip_idem]

theorem countKey_eq_countP_of_stripped (M : List LedgerRow) (hM : M.map stripRow = M)
    (n : String) : countKey M n = M.countP (fun r => r.number == n) := by
  unfold countKey
  apply List.countP_congr
  intro r hr
  have h := of_map_eq_self stripRow M hM r hr
  have : pyStrip r.number = r.number := congrArg LedgerRow.number h
  rw [this]

theorem find?_updateFirstMatch (M : List LedgerRow) (num date : String) (b : ℚ)
    (nm : String) (r0 : LedgerRow) (h : M.find? (fun r => r.number == num) = some r0) :
    (updateFirstMatch M num date b nm).find? (fun r => r.number == num)
      = some { r0 with
                 date := date
                 balance := b
                 name := (if goodIncomingName nm then nm else r0.name) } := by
  induction M with
  | nil => simp at h
  | cons r rs ih =>
    by_cases hr : (r.number == num) = true
    · rw [List.find?_cons_of_pos (p := fun x : LedgerRow => x.number == num) _ hr] at h
      have h' : r = r0 := by injection h
      subst h'
      unfold updateFirstMatch
      rw [if_pos hr]
      exact List.find?_cons_of_pos (p := fun x : LedgerRow => x.number == num) _ hr
    · rw [List.find?_cons_of_neg (p := fun x : LedgerRow => x.number == num) _ hr] at h
      unfold updateFirstMatch
      rw [if_neg hr, List.find?_cons_of_neg (p := fun x : LedgerRow => x.number == num) _ hr]
      exact ih h

theorem find?_append_singleton (M : List LedgerRow) (p : LedgerRow → Bool) (x : LedgerRow)
    (hM : M.find? p = none) (hx : p x = true) : (M ++ [x]).find? p = some x := by
  rw [List.find?_append, hM]
  rw [List.find?_cons_of_pos (p := p) _ hx]
  rfl

theorem upsert_findKey (pyFloat : String → Option ℚ) (L : List LedgerRow)
    (date number nm bal : String) (b : ℚ) (hb : coerceBal pyFloat bal = some b) :
    findKey (updateSummaryUpsert pyFloat L date number nm bal) (pyStrip number)
      = some (match findKey L (pyStrip number) with
              | none => { date := date, number := pyStrip number, name := nm, balance := b }
              | some r0 =>
                { r0 with
                    date := date
                    balance := b
                    name := (if goodIncomingName nm then nm else r0.name) }) := by
  have hfk : findKey (updateSummaryUpsert pyFloat L date number nm bal) (pyStrip number)
      = (updateSummaryUpsert pyFloat L date number nm bal).find?
          (fun r => r.number == pyStrip number) := by
    unfold findKey
    rw [upsert_stripped pyFloat L date number nm bal b hb]
  rw [hfk]
  unfold updateSummaryUpsert
  rw [hb]
  dsimp only
  by_cases h : (L.map stripRow).any (fun r => r.number == pyStrip number) = true
  · rw [if_pos h]
    obtain ⟨r0, hr0⟩ : ∃ r0, (L.map stripRow).find? (fun r => r.number == pyStrip number)
        = some r0 := by
      obtain ⟨x, hx, hpx⟩ := List.any_eq_true.mp h
      cases hfind : (L.map stripRow).find? (fun r => r.number == pyStrip number) with
      | none => exact absurd hpx (List.find?_eq_none.mp hfind x hx)
      | some r0 => exact ⟨r0, rfl⟩
    have hfkL : findKey L (pyStrip number) = some r0 := hr0
    rw [hfkL]
    exact find?_updateFirstMatch _ _ _ _ _ _ hr0
  · rw [if_neg h]
    have hnone : (L.map stripRow).find? (fun r => r.number == pyStrip number) = none := by
      rw [List.find?_eq_none]
      intro x hx hpx
      exact h (List.any_eq_true.mpr ⟨x, hx, hpx⟩)
    have hfkL : findKey L (pyStrip number) = none := hnone
    rw [hfkL]
    exact find?_append_singleton _ _ _ hnone (by simp)

theorem findKey_number (L : List LedgerRow) (n : String) (r : LedgerRow)
    (h : findKey L n = some r) : r.number = n := by
  have h' : (L.map stripRow).find? (fun x => x.number == n) = some r := h
  have hp := List.find?_some h'
  exact beq_iff_eq.mp hp

theorem upsert_countKey_of_found (pyFloat : String → Option ℚ) (L : List LedgerRow)
    (date number nm bal : String) (b : ℚ) (hb : coerceBal pyFloat bal = some b)
    (r0 : LedgerRow) (hf : findKey L (pyStrip number) = some r0) (k : String) :
    countKey (updateSummaryUpsert pyFloat L date number nm bal) k = countKey L k := by
  unfold updateSummaryUpsert
  rw [hb]
  dsimp only
  have hf' : (L.map stripRow).find? (fun r => r.number == pyStrip number) = some r0 := hf
  have hp := List.find?_some hf'
  have hany : (L.map stripRow).any (fun r => r.number == pyStrip number) = true := by
    apply List.any_eq_true.mpr
    exact ⟨r0, List.mem_of_find?_eq_some hf', hp⟩
  rw [if_pos hany, countKey_updateFirstMatch, countKey_map_strip]

theorem upsert_countKey_of_new (pyFloat : String → Option ℚ) (L : List LedgerRow)
    (date number nm bal : String) (b : ℚ) (hb : coerceBal pyFloat bal = some b)
    (hf : findKey L (pyStrip number) = none) :
    countKey (updateSummaryUpsert pyFloat L date number nm bal) (pyStrip number) = 1
      ∧ ∀ k, k ≠ pyStrip number →
          countKey (updateSummaryUpsert pyFloat L date number nm bal) k = countKey L k := by
  unfold updateSummaryUpsert
  rw [hb]
  dsimp only
  have hany : ¬ (L.map stripRow).any (fun r => r.number == pyStrip number) = true := by
    intro h
    obtain ⟨x, hx, hpx⟩ := List.any_eq_true.mp h
    exact List.find?_eq_none.mp hf x hx hpx
  rw [if_neg hany]
  constructor
  · unfold countKey
    rw [List.countP_append]
    have hzero : (L.map stripRow).countP (fun r => pyStrip r.number == pyStrip number) = 0 := by
      rw [List.countP_eq_zero]
      intro r hr hpr
      obtain ⟨r', _, rfl⟩ := List.mem_map.mp hr
      rw [show pyStrip (stripRow r').number = (stripRow r').number from
        congrArg LedgerRow.number (stripRow_idem r')] at hpr
      exact List.find?_eq_none.mp hf (stripRow r') hr hpr
    rw [hzero]
    simp [pyStrip_idem]
  · intro k hk
    unfold countKey
    rw [List.countP_append]
    have hone : ([{ date := date, number := pyStrip number, name := nm, balance := b }]
        : List LedgerRow).countP (fun r => pyStrip r.number == k) = 0 := by
      rw [List.countP_eq_zero]
      intro r hr hpr
      rw [List.mem_singleton] at hr
      subst hr
      rw [pyStrip_idem] at hpr
      exact hk (beq_iff_eq.mp hpr).symm
    rw [hone]
    have hms := countKey_map_strip L k
    unfold countKey at hms
    rw [hms]
    omega

theorem findKey_countKey_pos (L : List LedgerRow) (n : String) (r : LedgerRow)
    (h : findKey L n = some r) : 1 ≤ countKey L n := by
  have h' : (L.map stripRow).find? (fun x => x.number == n) = some r := h
  have hp := List.find?_some h'
  rw [← countKey_map_strip]
  rw [countKey_eq_countP_of_stripped _ (strip_map_strip L)]
  have hpos : 0 < (L.map stripRow).countP (fun x => x.number == n) :=
    List.countP_pos_iff.mpr ⟨r, List.mem_of_find?_eq_some h', hp⟩
  omega

theorem processFile_valid (pyFloat : String → Option ℚ) (filename : String)
    (row : List (String × String)) (L : List LedgerRow) (num d bal : String)
    (hext : extractNumber filename = some num) (hd : rowGet row "Date" = some d)
    (hb : rowGet row "Balance" = some bal) :
    processFile pyFloat filename (some row) L
      = updateSummaryUpsert pyFloat L d num (nameOf num row) bal := by
  unfold processFile
  rw [hext]
  dsimp only
  rw [hd, hb]

theorem updateFirstMatch_any (M : List LedgerRow) (num date : String) (b : ℚ) (nm : String) :
    (updateFirstMatch M num date b nm).any (fun r => r.number == num)
      = M.any (fun r => r.number == num) := by
  induction M with
  | nil => rfl
  | cons r rs ih =>
    unfold updateFirstMatch
    by_cases h : (r.number == num) = true
    · rw [if_pos h]
      simp [List.any_cons, h]
    · rw [if_neg h]
      simp only [List.any_cons, ih]

theorem updateFirstMatch_cons (r : LedgerRow) (rs : List LedgerRow) (num date : String)
    (b : ℚ) (nm : String) :
    updateFirstMatch (r :: rs) num date b nm
      = if (r.number == num) = true
        then { r with
                 date := date
                 balance := b
                 name := (if goodIncomingName nm then nm else r.name) } :: rs
        else r :: updateFirstMatch rs num date b nm := rfl

theorem updateFirstMatch_idem (M : List LedgerRow) (num date : String) (b : ℚ) (nm : String) :
    updateFirstMatch (updateFirstMatch M num date b nm) num date b nm
      = updateFirstMatch M num date b nm := by
  induction M with
  | nil => rfl
  | cons r rs ih =>
    rw [updateFirstMatch_cons]
    by_cases h : (r.number == num) = true
    · rw [if_pos h, updateFirstMatch_cons, if_pos h]
      by_cases hg : goodIncomingName nm = true
      · simp [hg]
      · simp [hg]
    · rw [if_neg h, updateFirstMatch_cons, if_neg h, ih]

theorem updateFirstMatch_append_new (M : List LedgerRow) (num date : String) (b : ℚ)
    (nm : String) (hM : ∀ r ∈ M, ¬((r.number == num) = true)) :
    updateFirstMatch (M ++ [{ date := date, number := num, name := nm, balance := b }])
        num date b nm
      = M ++ [{ date := date, number := num, name := nm, balance := b }] := by
  induction M with
  | nil =>
    rw [List.nil_append, updateFirstMatch_cons, if_pos (by simp)]
    by_cases hg : goodIncomingName nm = true
    · simp [hg]
    · simp [hg]
  | cons r rs ih =>
    rw [List.cons_append, updateFirstMatch_cons]
    rw [if_neg (hM r (List.mem_cons_self r rs))]
    rw [ih (fun x hx => hM x (List.mem_cons_of_mem r hx))]

theorem upsert_idem (pyFloat : String → Option ℚ) (L : List LedgerRow)
    (date number nm bal : String) (b : ℚ) (hb : coerceBal pyFloat bal = some b) :
    updateSummaryUpsert pyFloat (updateSummaryUpsert pyFloat L date number nm bal)
        date number nm bal
      = updateSummaryUpsert pyFloat L date number nm bal := by
  unfold updateSummaryUpsert
  rw [hb]
  dsimp only
  by_cases h : (L.map stripRow).any (fun r => r.number == pyStrip number) = true
  · rw [if_pos h]
    rw [map_strip_updateFirstMatch _ _ _ _ _ (strip_map_strip L)]
    rw [if_pos (by rw [updateFirstMatch_any]; exact h)]
    exact updateFirstMatch_idem _ _ _ _ _
  · rw [if_neg h]
    have hstr : ((L.map stripRow)
        ++ [({ date := date, number := pyStrip number, name := nm, balance := b } : LedgerRow)]).map
          stripRow
        = (L.map stripRow)
          ++ [({ date := date, number := pyStrip number, name := nm, balance := b } : LedgerRow)] := by
      rw [List.map_append, strip_map_strip]
      congr 1
      simp [stripRow, pyStrip_idem]
    rw [hstr]
    have hany2 : ((L.map stripRow)
        ++ [({ date := date, number := pyStrip number, name := nm, balance := b } : LedgerRow)]).any
          (fun r => r.number == pyStrip number) = true := by
      rw [List.any_append]
      simp
    rw [if_pos hany2]
    apply updateFirstMatch_append_new
    intro r hr hpr
    exact h (List.any_eq_true.mpr ⟨r, hr, hpr⟩)

/-- The full effect of one valid ingestion: exactly one (key-normalised)
ledger row for the file's account number, holding the file's date and parsed
balance, with the display name resolved against any previously stored row. -/
theorem ingest_spec (pyFloat : String → Option ℚ) (filename : String)
    (row : List (String × String)) (L : List LedgerRow) (num d bal : String) (q : ℚ)
    (hext : extractNumber filename = some num)
    (hstrip : pyStrip num = num)
    (hd : rowGet row "Date" = some d)
    (hb : rowGet row "Balance" = some bal)
    (hcb : coerceBal pyFloat bal = some q)
    (hinv : countKey L num ≤ 1) :
    countKey (processFile pyFloat filename (some row) L) num = 1
      ∧ ∃ r, findKey (processFile pyFloat filename (some row) L) num = some r
          ∧ r.number = num ∧ r.date = d ∧ r.balance = q
          ∧ r.name = (match findKey L num with
                      | none => nameOf num row
                      | some r0 =>
                        if goodIncomingName (nameOf num row) then nameOf num row else r0.name) := by
  rw [processFile_valid pyFloat filename row L num d bal hext hd hb]
  have hfind := upsert_findKey pyFloat L d num (nameOf num row) bal q hcb
  rw [hstrip] at hfind
  cases hfk : findKey L num with
  | none =>
    rw [hfk] at hfind
    have hnew := upsert_countKey_of_new pyFloat L d num (nameOf num row) bal q hcb
      (by rwa [hstrip])
    constructor
    · have h1 := hnew.1
      rwa [hstrip] at h1
    · exact ⟨_, hfind, hstrip ▸ rfl, rfl, rfl, rfl⟩
  | some r0 =>
    rw [hfk] at hfind
    have heq := upsert_countKey_of_found pyFloat L d num (nameOf num row) bal q hcb r0
      (by rwa [hstrip]) num
    have hge := findKey_countKey_pos L num r0 hfk
    constructor
    · omega
    · exact ⟨_, hfind, findKey_number L num r0 hfk, rfl, rfl, rfl⟩

/-- C1: for every export file named `Transactions_<digits>.csv` whose first
data row carries a `Date` field and a (nonempty, parseable) `Balance` field,
ingestion leaves the ledger store with exactly one record keyed by the
file's account identifier, and that record's balance equals the numeric
value of the first data row's `Balance` field. -/
theorem c1_valid_ingest_unique_balance
    (pyFloat : String → Option ℚ) (filename : String) (row : List (String × String))
    (L : List LedgerRow) (num d bal : String) (q : ℚ)
    (hext : extractNumber filename = some num)
    (hstrip : pyStrip num = num)
    (hd : rowGet row "Date" = some d)
    (hb : rowGet row "Balance" = some bal)
    (hbe : bal ≠ "")
    (hq : pyFloat bal = some q)
    (hinv : countKey L num ≤ 1) :
    countKey (processFile pyFloat filename (some row) L) num = 1
      ∧ ∃ r, findKey (processFile pyFloat filename (some row) L) num = some r
          ∧ r.balance = q := by
  have hcb : coerceBal pyFloat bal = some q := by
    unfold coerceBal
    rw [if_neg (fun hc => hbe (beq_iff_eq.mp hc))]
    exact hq
  obtain ⟨h1, r, h2, _, _, h5, _⟩ :=
    ingest_spec pyFloat filename row L num d bal q hext hstrip hd hb hcb hinv
  exact ⟨h1, r, h2, h5⟩

/-- C1 witness: a concrete valid export file, ingested into an empty ledger. -/
theorem c1_witness :
    countKey (processFile pyFloatDigits "Transactions_555.csv"
        (some [("Date", "2026-01-01"), ("Balance", "50000")]) []) "555" = 1
      ∧ ∃ r, findKey (processFile pyFloatDigits "Transactions_555.csv"
            (some [("Date", "2026-01-01"), ("Balance", "50000")]) []) "555" = some r
          ∧ r.balance = ((50000 : ℕ) : ℚ) :=
  c1_valid_ingest_unique_balance pyFloatDigits "Transactions_555.csv"
    [("Date", "2026-01-01"), ("Balance", "50000")] [] "555" "2026-01-01" "50000"
    ((50000 : ℕ) : ℚ) (by decide) (by decide) (by decide) (by decide) (by decide)
    (by unfold pyFloatDigits
        rw [show parseNatDigits "50000" = some 50000 from by decide]
        rfl)
    (by simp [countKey])

/-- C5: ingesting the same valid export file twice is idempotent — the second
ingestion leaves the ledger unchanged — and the surviving single record holds
the file's date and balance (last-write-wins), while its name keeps a
previously stored value whenever the incoming resolved name is empty or the
`"Unknown"` sentinel. -/
theorem c5_ingest_idempotent
    (pyFloat : String → Option ℚ) (filename : String) (row : List (String × String))
    (L : List LedgerRow) (num d bal : String) (q : ℚ)
    (hext : extractNumber filename = some num)
    (hstrip : pyStrip num = num)
    (hd : rowGet row "Date" = some d)
    (hb : rowGet row "Balance" = some bal)
    (hq : coerceBal pyFloat bal = some q)
    (hinv : countKey L num ≤ 1) :
    processFile pyFloat filename (some row) (processFile pyFloat filename (some row) L)
        = processFile pyFloat filename (some row) L
      ∧ countKey (processFile pyFloat filename (some row) L) num = 1
      ∧ ∃ r1, findKey (processFile pyFloat filename (some row) L) num = some r1
          ∧ r1.date = d ∧ r1.balance = q
          ∧ r1.name = (match findKey L num with
                       | none => nameOf num row
                       | some r0 =>
                         if goodIncomingName (nameOf num row) then nameOf num row
                         else r0.name) := by
  refine ⟨?_, ?_⟩
  · rw [processFile_valid pyFloat filename row L num d bal hext hd hb,
        processFile_valid pyFloat filename row _ num d bal hext hd hb]
    exact upsert_idem pyFloat L d num (nameOf num row) bal q hq
  · obtain ⟨h1, r, h2, _, h4, h5, h6⟩ :=
      ingest_spec pyFloat filename row L num d bal q hext hstrip hd hb hq hinv
    exact ⟨h1, r, h2, h4, h5, h6⟩

/-- C5 witness: double-ingesting one concrete file into an empty ledger. -/
theorem c5_witness :
    processFile pyFloatDigits "Transactions_777.csv"
        (some [("Date", "2026-01-02"), ("Balance", "1200"), ("From", "777"),
          ("From name", "Bob")])
        (processFile pyFloatDigits "Transactions_777.csv"
          (some [("Date", "2026-01-02"), ("Balance", "1200"), ("From", "777"),
            ("From name", "Bob")]) [])
        = processFile pyFloatDigits "Transactions_777.csv"
            (some [("Date", "2026-01-02"), ("Balance", "1200"), ("From", "777"),
              ("From name", "Bob")]) []
      ∧ countKey (processFile pyFloatDigits "Transactions_777.csv"
          (some [("Date", "2026-01-02"), ("Balance", "1200"), ("From", "777"),
            ("From name", "Bob")]) []) "777" = 1
      ∧ ∃ r1, findKey (processFile pyFloatDigits "Transactions_777.csv"
            (some [("Date", "2026-01-02"), ("Balance", "1200"), ("From", "777"),
              ("From name", "Bob")]) []) "777" = some r1
          ∧ r1.date = "2026-01-02" ∧ r1.balance = ((1200 : ℕ) : ℚ)
          ∧ r1.name = (match findKey [] "777" with
                       | none => nameOf "777" [("Date", "2026-01-02"), ("Balance", "1200"),
                           ("From", "777"), ("From name", "Bob")]
                       | some r0 =>
                         if goodIncomingName (nameOf "777" [("Date", "2026-01-02"),
                             ("Balance", "1200"), ("From", "777"), ("From name", "Bob")])
                         then nameOf "777" [("Date", "2026-01-02"), ("Balance", "1200"),
                             ("From", "777"), ("From name", "Bob")]
                         else r0.name) :=
  c5_ingest_idempotent pyFloatDigits "Transactions_777.csv"
    [("Date", "2026-01-02"), ("Balance", "1200"), ("From", "777"), ("From name", "Bob")]
    [] "777" "2026-01-02" "1200" ((1200 : ℕ) : ℚ)
    (by decide) (by decide) (by decide) (by decide)
    (by unfold coerceBal
        rw [if_neg (by decide)]
        unfold pyFloatDigits
        rw [show parseNatDigits "1200" = some 1200 from by decide]
        rfl)
    (by simp [countKey])

/-- C10: a first data row carrying the `Balance` key with an empty-string
value passes the missing-column check (which fires only when the key is
absent) and is upserted with balance `0` — the file is not skipped. -/
theorem c10_empty_balance_zero
    (pyFloat : String → Option ℚ) (filename : String) (row : List (String × String))
    (L : List LedgerRow) (num d : String)
    (hext : extractNumber filename = some num)
    (hstrip : pyStrip num = num)
    (hd : rowGet row "Date" = some d)
    (hb : rowGet row "Balance" = some "")
    (hinv : countKey L num ≤ 1) :
    countKey (processFile pyFloat filename (some row) L) num = 1
      ∧ ∃ r, findKey (processFile pyFloat filename (some row) L) num = some r
          ∧ r.balance = 0 ∧ r.date = d := by
  have hcb : coerceBal pyFloat "" = some 0 := by
    unfold coerceBal
    rw [if_pos (by decide)]
  obtain ⟨h1, r, h2, _, h4, h5, _⟩ :=
    ingest_spec pyFloat filename row L num d "" 0 hext hstrip hd hb hcb hinv
  exact ⟨h1, r, h2, h5, h4⟩

/-- C10 witness: a concrete file whose first row has `Balance` present but
empty. -/
theorem c10_witness :
    countKey (processFile pyFloatDigits "Transactions_888.csv"
        (some [("Date", "2026-01-03"), ("Balance", "")]) []) "888" = 1
      ∧ ∃ r, findKey (processFile pyFloatDigits "Transactions_888.csv"
            (some [("Date", "2026-01-03"), ("Balance", "")]) []) "888" = some r
          ∧ r.balance = 0 ∧ r.date = "2026-01-03" :=
  c10_empty_balance_zero pyFloatDigits "Transactions_888.csv"
    [("Date", "2026-01-03"), ("Balance", "")] [] "888" "2026-01-03"
    (by decide) (by decide) (by decide) (by decide) (by simp [countKey])

/-- C4 counterexample: for the file `Transactions_999.csv` whose first record
has `From = "123"`, `To = "456"` and `From name = "Alice"`, the account
number `999` appears in neither side, yet the ingested display name is
`"Alice"`, not the fixed `"Unknown"` sentinel claimed — `process_file` falls
back to the `From name` field. -/
theorem c4_counterexample_fallback_name :
    pyIn "999" (rowGetD [("Date", "2026-01-01"), ("Balance", ""), ("From", "123"),
        ("To", "456"), ("From name", "Alice")] "From" "") = false
      ∧ pyIn "999" (rowGetD [("Date", "2026-01-01"), ("Balance", ""), ("From", "123"),
          ("To", "456"), ("From name", "Alice")] "To" "") = false
      ∧ processFile pyFloatDigits "Transactions_999.csv"
          (some [("Date", "2026-01-01"), ("Balance", ""), ("From", "123"),
            ("To", "456"), ("From name", "Alice")]) []
          = [{ date := "2026-01-01", number := "999", name := "Alice", balance := 0 }]
      ∧ ("Alice" : String) ≠ "Unknown" := by
  refine ⟨by decide, by decide, ?_, by decide⟩
  decide

/-- C4 amended: when the extracted account number occurs in neither the
`From` nor the `To` field of the first record, the display name passed to
the ledger upsert is the record's `From name` field, with the `"Unknown"`
sentinel only as the default for an absent `From name`; matching sides pick
`From name` resp. `To name` as in the code. Starting from an empty ledger,
the ingested record carries exactly that fallback name. -/
theorem c4_name_resolution
    (pyFloat : String → Option ℚ) (filename : String) (row : List (String × String))
    (num d bal : String) (q : ℚ)
    (hext : extractNumber filename = some num)
    (hstrip : pyStrip num = num)
    (hd : rowGet row "Date" = some d)
    (hb : rowGet row "Balance" = some bal)
    (hcb : coerceBal pyFloat bal = some q)
    (hfrom : pyIn num (rowGetD row "From" "") = false)
    (hto : pyIn num (rowGetD row "To" "") = false) :
    nameOf num row = rowGetD row "From name" "Unknown"
      ∧ ∃ r, findKey (processFile pyFloat filename (some row) []) num = some r
          ∧ r.name = rowGetD row "From name" "Unknown" := by
  have hname : nameOf num row = rowGetD row "From name" "Unknown" := by
    simp [nameOf, hfrom, hto]
  refine ⟨hname, ?_⟩
  obtain ⟨_, r, h2, _, _, _, h6⟩ :=
    ingest_spec pyFloat filename row [] num d bal q hext hstrip hd hb hcb
      (by simp [countKey])
  refine ⟨r, h2, ?_⟩
  rw [← hname]
  exact h6

/-- C4 amended witness: the concrete no-match record above, whose fallback
name is `"Alice"`. -/
theorem c4_witness :
    nameOf "999" [("Date", "2026-01-01"), ("Balance", ""), ("From", "123"),
        ("To", "456"), ("From name", "Alice")]
      = rowGetD [("Date", "2026-01-01"), ("Balance", ""), ("From", "123"),
          ("To", "456"), ("From name", "Alice")] "From name" "Unknown"
      ∧ ∃ r, findKey (processFile pyFloatDigits "Transactions_999.csv"
            (some [("Date", "2026-01-01"), ("Balance", ""), ("From", "123"),
              ("To", "456"), ("From name", "Alice")]) []) "999" = some r
          ∧ r.name = rowGetD [("Date", "2026-01-01"), ("Balance", ""), ("From", "123"),
              ("To", "456"), ("From name", "Alice")] "From name" "Unknown" :=
  c4_name_resolution pyFloatDigits "Transactions_999.csv"
    [("Date", "2026-01-01"), ("Balance", ""), ("From", "123"),
      ("To", "456"), ("From name", "Alice")]
    "999" "2026-01-01" "" 0
    (by decide) (by decide) (by decide) (by decide)
    (by unfold coerceBal
        rw [if_pos (by decide)])
    (by decide) (by decide)

/-! ## `auto_sync.py`: the drain/batch controller -/

/-- The in-memory batch state of `auto_sync.main`: the running
`processed_count` counter and the `pending_push` flag. -/
structure BatchState where
  processedCount : ℕ
  pendingPush : Bool
deriving DecidableEq

/-- One iteration of the drain-loop body of `auto_sync.main` for a file whose
move succeeded: `processed_count += 1`, `pending_push = True`, and when the
new count is a multiple of `BATCH_SIZE` fire `git_push_updates(count)` —
returned as the tag — then `pending_push = False`. -/
def drainOne (B : ℕ) (st : BatchState) : BatchState × Option ℕ :=
  let c := st.processedCount + 1
  if c % B == 0 then ({ processedCount := c, pendingPush := false }, some c)
  else ({ processedCount := c, pendingPush := true }, none)

/-- The drain loop over one batch of detected files. Each `Bool` records
whether that file's move out of the source directory succeeded (a
`PermissionError` skips the whole body, counter included). Returns the final
state and the list of batch-sync tags fired, in order. -/
def drainFiles (B : ℕ) (files : List Bool) (st : BatchState) : BatchState × List ℕ :=
  match files with
  | [] => (st, [])
  | ok :: fs =>
    if ok then
      (((drainFiles B fs (drainOne B st).1).1),
        (drainOne B st).2.toList ++ (drainFiles B fs (drainOne B st).1).2)
    else drainFiles B fs st

theorem drainFiles_cons_true (B : ℕ) (fs : List Bool) (st : BatchState) :
    drainFiles B (true :: fs) st
      = ((drainFiles B fs (drainOne B st).1).1,
         (drainOne B st).2.toList ++ (drainFiles B fs (drainOne B st).1).2) := rfl

theorem range_succ_shift_filter (B c m : ℕ) :
    ((List.range (m + 1)).map (fun i => c + i + 1)).filter (fun k => k % B == 0)
      = (if ((c + 1) % B == 0) = true then [c + 1] else [])
        ++ ((List.range m).map (fun i => (c + 1) + i + 1)).filter (fun k => k % B == 0) := by
  rw [List.range_succ_eq_map, List.map_cons, List.map_map]
  have hmap : (List.range m).map ((fun i => c + i + 1) ∘ Nat.succ)
      = (List.range m).map (fun i => (c + 1) + i + 1) := by
    apply List.map_congr_left
    intro i _
    show c + (i + 1) + 1 = (c + 1) + i + 1
    omega
  rw [hmap, List.filter_cons]
  simp only [Nat.add_zero]
  by_cases h : ((c + 1) % B == 0) = true
  · rw [if_pos h, if_pos h]
    rfl
  · rw [if_neg h, if_neg h]
    rfl

theorem drainFiles_replicate (B n c : ℕ) (p : Bool) :
    drainFiles B (List.replicate n true) ⟨c, p⟩
      = (⟨c + n, if n = 0 then p else decide ((c + n) % B ≠ 0)⟩,
         ((List.range n).map (fun i => c + i + 1)).filter (fun k => k % B == 0)) := by
  induction n generalizing c p with
  | zero => simp [drainFiles]
  | succ m ih =>
    rw [List.replicate_succ, drainFiles_cons_true]
    by_cases h : ((c + 1) % B == 0) = true
    · have hone : drainOne B ⟨c, p⟩ = (⟨c + 1, false⟩, some (c + 1)) := by
        simp only [drainOne]
        rw [if_pos h]
      rw [hone]
      dsimp only
      rw [ih (c + 1) false, range_succ_shift_filter B c m, if_pos h]
      refine congrArg₂ Prod.mk ?_ ?_
      · rcases Nat.eq_zero_or_pos m with hm | hm
        · subst hm
          have h0 : (c + 1) % B = 0 := by simpa using h
          simp [h0]
        · rw [if_neg (by omega : ¬ m = 0), if_neg (by omega : ¬ m + 1 = 0)]
          have hcm : c + 1 + m = c + (m + 1) := by omega
          rw [hcm]
      · rfl
    · have hone : drainOne B ⟨c, p⟩ = (⟨c + 1, true⟩, none) := by
        simp only [drainOne]
        rw [if_neg h]
      rw [hone]
      dsimp only
      rw [ih (c + 1) true, range_succ_shift_filter B c m, if_neg h]
      refine congrArg₂ Prod.mk ?_ ?_
      · rcases Nat.eq_zero_or_pos m with hm | hm
        · subst hm
          have h0 : ¬ (c + 1) % B = 0 := by simpa using h
          simp [h0]
        · rw [if_neg (by omega : ¬ m = 0), if_neg (by omega : ¬ m + 1 = 0)]
          have hcm : c + 1 + m = c + (m + 1) := by omega
          rw [hcm]
      · rfl

/-- C7: in the drain loop, a batch-sync call fires exactly when the running
`processed_count` becomes a multiple of `BATCH_SIZE` after a successfully
moved file, the call is tagged with that count, and `pending_push` is
cleared immediately afterwards; over a drain of `n` successful files from a
fresh start the fired tags are exactly the multiples of `BATCH_SIZE` among
`1..n`. -/
theorem c7_batch_sync_trigger (B n : ℕ) (hB : 0 < B) :
    (drainFiles B (List.replicate n true) ⟨0, false⟩).2
        = ((List.range n).map (fun i => i + 1)).filter (fun k => k % B == 0)
      ∧ (drainFiles B (List.replicate n true) ⟨0, false⟩).1.processedCount = n
      ∧ (∀ st st2 c, drainOne B st = (st2, some c) →
          st2.pendingPush = false ∧ c = st.processedCount + 1 ∧ c % B = 0)
      ∧ (∀ st st2, drainOne B st = (st2, none) →
          st2.pendingPush = true ∧ (st.processedCount + 1) % B ≠ 0) := by
  have hrep := drainFiles_replicate B n 0 false
  refine ⟨?_, ?_, ?_, ?_⟩
  · rw [hrep]
    have hmap : (List.range n).map (fun i => 0 + i + 1)
        = (List.range n).map (fun i => i + 1) := by
      apply List.map_congr_left
      intro i _
      omega
    rw [hmap]
  · rw [hrep]
    simp
  · intro st st2 c hone
    by_cases h : ((st.processedCount + 1) % B == 0) = true
    · simp only [drainOne, if_pos h] at hone
      obtain ⟨h1, h2⟩ := Prod.mk.injEq .. |>.mp hone
      refine ⟨?_, ?_, ?_⟩
      · rw [← h1]
      · injection h2 with h2
        omega
      · injection h2 with h2
        have hmod := beq_iff_eq.mp h
        rw [← h2]
        exact hmod
    · simp only [drainOne, if_neg h] at hone
      obtain ⟨_, h2⟩ := Prod.mk.injEq .. |>.mp hone
      simp at h2
  · intro st st2 hone
    by_cases h : ((st.processedCount + 1) % B == 0) = true
    · simp only [drainOne, if_pos h] at hone
      obtain ⟨_, h2⟩ := Prod.mk.injEq .. |>.mp hone
      simp at h2
    · simp only [drainOne, if_neg h] at hone
      obtain ⟨h1, _⟩ := Prod.mk.injEq .. |>.mp hone
      refine ⟨by rw [← h1], ?_⟩
      intro hc
      exact h (by simpa using hc)

/-- C7 witness: with `BATCH_SIZE = 100`, draining 100 successfully moved
files from a fresh start fires exactly one batch-sync call, tagged `100`. -/
theorem c7_witness :
    (drainFiles 100 (List.replicate 100 true) ⟨0, false⟩).2 = [100]
      ∧ (drainFiles 100 (List.replicate 100 true) ⟨0, false⟩).1.processedCount = 100 := by
  have h := c7_batch_sync_trigger 100 100 (by decide)
  exact ⟨h.1.trans (by decide), h.2.1⟩

/-! ## Reconciliation: target-dataset model shared by `reconcile_data.py`
and `reconciliation_global.py` -/

/-- One row of the target/quota dataset (`OOS1.xlsx`) after the column
renames: the agent key, the numeric target amount (`Montants OOS`), and the
values of whichever categorical columns the file carries. -/
structure OOSRow where
  key : String
  montants : ℚ
  cats : List (String × String)
deriving DecidableEq

/-- Cell of categorical column `c` in row `r` (`"N/A"` only as an unused
default: in a well-formed table the columns listed table-wide are present in
every row). -/
def catValD (r : OOSRow) (c : String) : String := (List.lookup c r.cats).getD "N/A"

/-- All rows of the dataset carrying key `k`, in source order. -/
def keyGroup (rows : List OOSRow) (k : String) : List OOSRow :=
  rows.filter (fun r => r.key == k)

/-- `desired_cat_cols` of `reconcile_data.py` (line 76). -/
def desiredCatCols : List String :=
  ["Site", "Sous-Zone", "Routes", "segment_group", "TERRITORY CORRECT"]

/-- `desired_cat_cols` of `reconciliation_global.py` (line 73); the temporary
`OOS_Name` column is a copy of `Sous-Zone` (or all-null), so it is modelled
by reading `Sous-Zone` of the representative row at name-resolution time. -/
def desiredCatColsGlobal : List String := desiredCatCols ++ ["OOS_Name"]

/-- The aggregated row `groupby('AGENT_MSISDN').mean()` merged with
`groupby('AGENT_MSISDN').first()` for one key: arithmetic mean of the
numeric column, first-observed value of each categorical column that the
file carries (columns outside `catCols` are omitted). -/
def aggRowFor (catCols desired : List String) (rows : List OOSRow) (k : String) : OOSRow :=
  { key := k
    montants := ((keyGroup rows k).map (fun r => r.montants)).sum
      / ((keyGroup rows k).length : ℚ)
    cats := (desired.filter (fun c => catCols.contains c)).map
      (fun c => (c, ((keyGroup rows k).head?.map (fun r => catValD r c)).getD "N/A")) }

/-- The deduplication block of both reconciliation scripts, one output row
per distinct key. (pandas emits group keys sorted; first-occurrence order is
used here, which none of the verified properties depend on.) -/
def aggregateOOS (catCols desired : List String) (rows : List OOSRow) : List OOSRow :=
  ((rows.map (fun r => r.key)).dedup).map (aggRowFor catCols desired rows)

/-- `if df_oos.duplicated(subset=['AGENT_MSISDN']).any(): ... aggregate`:
the dataset is left untouched when no key is duplicated. -/
def dedupOOSIfNeeded (catCols desired : List String) (rows : List OOSRow) : List OOSRow :=
  if (rows.map (fun r => r.key)).Nodup then rows else aggregateOOS catCols desired rows

/-- `clean_div` of both reconciliation scripts: `balance / target` with the
explicit zero-guard on the target amount. -/
def cleanDiv (bal oos : ℚ) : ℚ := if oos = 0 then 0 else bal / oos

/-- `pd.to_numeric(..., errors='coerce').fillna(0).astype('int64')` applied
to one identifier string (`reconciliation_global.py` lines 153–154),
modelled for the digit-string identifiers this pipeline produces: a nonempty
all-digit string parses to its decimal value, anything unparseable coerces
to `NaN` and is filled with `0`. -/
def numeroInt64 (s : String) : Int := ((parseNatDigits s).getD 0 : ℕ)

/-- The summary artifact as read back for reconciliation: its rows, plus
whether the `Number` column is present (its absence makes the merge raise). -/
structure SummaryTable where
  hasNumber : Bool
  rows : List LedgerRow
deriving DecidableEq

/-- The target artifact as read for reconciliation: whether the agent-key
column survives the renames, which categorical columns the file carries
(post-rename names), and its rows. -/
structure OOSTable where
  hasAgent : Bool
  catCols : List String
  rows : List OOSRow
deriving DecidableEq

/-- `pd.merge(df_summary, df_oos, left_on='Number', right_on='AGENT_MSISDN',
how='inner')`: for each summary row in order, all target rows with an equal
key. -/
def mergePairs (srows : List LedgerRow) (orows : List OOSRow) :
    List (LedgerRow × OOSRow) :=
  match srows with
  | [] => []
  | sr :: rest =>
    ((orows.filter (fun w => w.key == sr.number)).map (fun w => (sr, w)))
      ++ mergePairs rest orows

/-- The unusable-name sentinels of `determine_name`. -/
def pyBadNames : List String := ["nan", "unknown", "none", ""]

/-- `determine_name` of `reconciliation_global.py`: the summary `Name` if
usable, else the OOS-side fallback name, else the identifier. `none` for the
OOS name models the all-null column (`str(...)` of a null is `"nan"` or
`"None"`, both sentinels). -/
def determineName (name : String) (oosName : Option String) (number : String) : String :=
  if pyStrip name ≠ "" ∧ ¬ pyBadNames.contains (strToLower (pyStrip name)) then
    pyStrip name
  else
    match oosName with
    | some v =>
      if pyStrip v ≠ "" ∧ ¬ pyBadNames.contains (strToLower (pyStrip v)) then pyStrip v
      else number
    | none => number

/-- One row of the reconciliation report written by
`reconciliation_global.py` (`Numero` cast to int64 at lines 153–154). -/
structure RRow where
  numero : Int
  noms : String
  routes : String
  sousZone : String
  montants : ℚ
  balance : ℚ
  valeur : ℚ
  jours : ℚ
  site : String
deriving DecidableEq

/-- One row of the reconciliation report written by `reconcile_data.py`
(`Numero` kept as the identifier string). -/
structure RRowS where
  numero : String
  noms : String
  routes : String
  sousZone : String
  montants : ℚ
  balance : ℚ
  valeur : ℚ
  jours : ℚ
  site : String
deriving DecidableEq

/-- The merged/derived report rows of `reconciliation_global.reconcile_data`
(everything before the history step): strip both join keys, aggregate
duplicate target keys, inner-join, resolve names, compute the derived
metrics, select the fixed column set (an absent categorical column is filled
with `"N/A"`), and cast `Numero` to int64. -/
def reconRows (s : SummaryTable) (t : OOSTable) : List RRow :=
  (mergePairs (s.rows.map (fun r => { r with number := pyStrip r.number }))
      (dedupOOSIfNeeded t.catCols desiredCatColsGlobal
        (t.rows.map (fun r => { r with key := pyStrip r.key })))).map (fun pr =>
    { numero := numeroInt64 pr.1.number
      noms := determineName pr.1.name
        (if t.catCols.contains "Sous-Zone" then some (catValD pr.2 "Sous-Zone") else none)
        pr.1.number
      routes := if t.catCols.contains "Routes" then catValD pr.2 "Routes" else "N/A"
      sousZone := if t.catCols.contains "Sous-Zone" then catValD pr.2 "Sous-Zone" else "N/A"
      montants := pr.2.montants
      balance := pr.1.balance
      valeur := pr.1.balance - pr.2.montants
      jours := cleanDiv pr.1.balance pr.2.montants
      site := if t.catCols.contains "Site" then catValD pr.2 "Site" else "N/A" })

/-- One row of the history time series (`history.csv`). -/
structure HRow where
  date : String
  totalBalance : ℚ
  totalOOS : ℚ
  ruptureRate : ℚ
  posCount : ℕ
deriving DecidableEq

/-- The persisted history artifact: absent, malformed (its read or its
`Date` filter raises), or a well-formed table. -/
inductive HistFile where
  | absent : HistFile
  | malformed : HistFile
  | table : List HRow → HistFile
deriving DecidableEq

/-- The aggregate statistics logged per run (`reconciliation_global.py`
lines 158–171): totals, count, and the share of rows with coverage below
the 0.5 shortage threshold. -/
def histStats (today : String) (rows : List RRow) : HRow :=
  { date := today
    totalBalance := (rows.map (fun r => r.balance)).sum
    totalOOS := (rows.map (fun r => r.montants)).sum
    ruptureRate :=
      if 0 < rows.length then
        (((rows.filter (fun r => r.jours < (1 / 2 : ℚ))).length : ℚ)
          / (rows.length : ℚ)) * 100
      else 0
    posCount := rows.length }

/-- The history upsert (lines 173–180): drop any existing row for today's
date, then append the fresh snapshot. -/
def upsertHist (today : String) (row : HRow) (rows : List HRow) : List HRow :=
  (rows.filter (fun r => !(r.date == today))) ++ [row]

/-- How one reconciliation attempt ended; `ok b` is a completed run, with
`b` recording whether the history step failed (caught by its inner
handler). -/
inductive RunOutcome where
  | missingSummary : RunOutcome
  | missingOOS : RunOutcome
  | missingAgent : RunOutcome
  | mergeError : RunOutcome
  | ok : Bool → RunOutcome
deriving DecidableEq

/-- The two artifacts `reconciliation_global.py` writes. -/
structure ArtifactState where
  report : Option (List RRow)
  history : HistFile
deriving DecidableEq

/-- `reconcile_data` of `reconciliation_global.py` as a transition on the
persisted artifacts. The early returns (missing source files, missing agent
column) and the outer exception handler (merge `KeyError` when `Number` is
absent) all fire before any write; a failure confined to the history block
(a malformed history file) is caught by the inner handler, leaves the
history untouched, and the report is still overwritten afterwards. -/
def reconcileGlobal (summary : Option SummaryTable) (oos : Option OOSTable)
    (today : String) (fs : ArtifactState) : ArtifactState × RunOutcome :=
  match summary with
  | none => (fs, RunOutcome.missingSummary)
  | some s =>
    match oos with
    | none => (fs, RunOutcome.missingOOS)
    | some t =>
      if ¬ t.hasAgent then (fs, RunOutcome.missingAgent)
      else if ¬ s.hasNumber then (fs, RunOutcome.mergeError)
      else
        match fs.history with
        | HistFile.malformed =>
          ({ report := some (reconRows s t), history := HistFile.malformed },
            RunOutcome.ok true)
        | HistFile.absent =>
          ({ report := some (reconRows s t),
             history := HistFile.table
               (upsertHist today (histStats today (reconRows s t)) []) },
            RunOutcome.ok false)
        | HistFile.table h =>
          ({ report := some (reconRows s t),
             history := HistFile.table
               (upsertHist today (histStats today (reconRows s t)) h) },
            RunOutcome.ok false)

/-- The categorical columns surviving `reconcile_data.py`'s dedup branch:
all of them when no key is duplicated, otherwise the desired ones present. -/
def effectiveCatColsSimple (t : OOSTable) : List String :=
  if (t.rows.map (fun r => r.key)).Nodup then t.catCols
  else desiredCatCols.filter (fun c => t.catCols.contains c)

/-- The report rows of `reconcile_data.py`: same aggregation, join and
metrics, but keys are not whitespace-stripped, `Noms` comes from a
`nom et prenoms` column when one exists (else the `Number` value), and
`Numero` keeps the identifier string unchanged. -/
def reconRowsSimple (s : SummaryTable) (t : OOSTable) : List RRowS :=
  (mergePairs s.rows (dedupOOSIfNeeded t.catCols desiredCatCols t.rows)).map (fun pr =>
    { numero := pr.1.number
      noms := if (effectiveCatColsSimple t).contains "nom et prenoms"
              then catValD pr.2 "nom et prenoms" else pr.1.number
      routes := if t.catCols.contains "Routes" then catValD pr.2 "Routes" else "N/A"
      sousZone := if t.catCols.contains "Sous-Zone" then catValD pr.2 "Sous-Zone" else "N/A"
      montants := pr.2.montants
      balance := pr.1.balance
      valeur := pr.1.balance - pr.2.montants
      jours := cleanDiv pr.1.balance pr.2.montants
      site := if t.catCols.contains "Site" then catValD pr.2 "Site" else "N/A" })

/-- `reconcile_data` of `reconcile_data.py` as a transition on its single
artifact: every caught failure (missing source file, missing agent column,
missing `Number` join column) precedes the lone report write. -/
def reconcileSimple (summary : Option SummaryTable) (oos : Option OOSTable)
    (report : Option (List RRowS)) : Option (List RRowS) × RunOutcome :=
  match summary with
  | none => (report, RunOutcome.missingSummary)
  | some s =>
    match oos with
    | none => (report, RunOutcome.missingOOS)
    | some t =>
      if ¬ t.hasAgent then (report, RunOutcome.missingAgent)
      else if ¬ s.hasNumber then (report, RunOutcome.mergeError)
      else (some (reconRowsSimple s t), RunOutcome.ok false)

theorem lookup_map_self (f : String → String) (l : List String) (c : String) :
    List.lookup c (l.map (fun x => (x, f x))) = if c ∈ l then some (f c) else none := by
  induction l with
  | nil => simp
  | cons a t ih =>
    rw [List.map_cons]
    by_cases h : (c == a) = true
    · have hca : c = a := beq_iff_eq.mp h
      subst hca
      simp [List.lookup]
    · have hne : c ≠ a := fun hc => h (beq_iff_eq.mpr hc)
      have hstep : List.lookup c ((a, f a) :: t.map (fun x => (x, f x)))
          = List.lookup c (t.map (fun x => (x, f x))) := by
        simp [List.lookup, h]
      rw [hstep, ih]
      by_cases hm : c ∈ t
      · rw [if_pos hm, if_pos (List.mem_cons_of_mem a hm)]
      · rw [if_neg hm, if_neg (by simp [hne, hm])]

theorem lookup_eq_none_of_not_mem_keys (l : List (String × String)) (c : String)
    (h : c ∉ l.map Prod.fst) : List.lookup c l = none := by
  induction l with
  | nil => rfl
  | cons p t ih =>
    rw [List.map_cons] at h
    have h1 : c ≠ p.1 := fun hc => h (hc ▸ List.mem_cons_self _ _)
    have h2 : c ∉ t.map Prod.fst := fun hm => h (List.mem_cons_of_mem _ hm)
    cases p with
    | mk a b =>
      simp only [List.lookup]
      rw [show (c == a) = false from beq_eq_false_iff_ne.mpr h1]
      exact ih h2

theorem keyGroup_head_of_mem (rows : List OOSRow) (k : String)
    (hk : k ∈ rows.map (fun r => r.key)) : ∃ r0, (keyGroup rows k).head? = some r0 := by
  obtain ⟨r, hr, hkey⟩ := List.mem_map.mp hk
  cases hg : keyGroup rows k with
  | nil =>
    have hmem : r ∈ keyGroup rows k := List.mem_filter.mpr ⟨hr, by simp [hkey]⟩
    rw [hg] at hmem
    simp at hmem
  | cons a t => exact ⟨a, rfl⟩

theorem aggregateOOS_map_key (catCols desired : List String) (rows : List OOSRow) :
    (aggregateOOS catCols desired rows).map (fun r => r.key)
      = (rows.map (fun r => r.key)).dedup := by
  unfold aggregateOOS
  rw [List.map_map]
  exact List.map_id _

/-- C2: when the target dataset has duplicate keys, the deduplication block
collapses it to exactly one row per key whose numeric `Montants OOS` is the
arithmetic mean of that key's rows and whose categorical cells (those of the
desired columns the file carries) hold the first-observed values; a desired
categorical column absent from the file is omitted from the aggregate rather
than failing. -/
theorem c2_duplicate_target_aggregation
    (catCols desired : List String) (rows : List OOSRow)
    (hdup : ¬ (rows.map (fun r => r.key)).Nodup) :
    ((dedupOOSIfNeeded catCols desired rows).map (fun r => r.key)).Nodup
      ∧ (∀ k, k ∈ (dedupOOSIfNeeded catCols desired rows).map (fun r => r.key)
          ↔ k ∈ rows.map (fun r => r.key))
      ∧ (∀ a ∈ dedupOOSIfNeeded catCols desired rows,
          a.montants = ((keyGroup rows a.key).map (fun r => r.montants)).sum
              / ((keyGroup rows a.key).length : ℚ))
      ∧ (∀ a ∈ dedupOOSIfNeeded catCols desired rows, ∀ c, c ∈ desired →
          catCols.contains c = true →
          ∃ r0, (keyGroup rows a.key).head? = some r0
            ∧ List.lookup c a.cats = some (catValD r0 c))
      ∧ (∀ a ∈ dedupOOSIfNeeded catCols desired rows, ∀ c,
          catCols.contains c = false → List.lookup c a.cats = none) := by
  have hneq : dedupOOSIfNeeded catCols desired rows = aggregateOOS catCols desired rows := by
    unfold dedupOOSIfNeeded
    rw [if_neg hdup]
  rw [hneq]
  have hkeys := aggregateOOS_map_key catCols desired rows
  refine ⟨?_, ?_, ?_, ?_, ?_⟩
  · rw [hkeys]
    exact List.nodup_dedup _
  · intro k
    rw [hkeys]
    exact List.mem_dedup
  · intro a ha
    obtain ⟨k, _, rfl⟩ := List.mem_map.mp ha
    rfl
  · intro a ha c hcd hcc
    obtain ⟨k, hk, rfl⟩ := List.mem_map.mp ha
    have hkmem : k ∈ rows.map (fun r => r.key) := List.mem_dedup.mp hk
    obtain ⟨r0, hr0⟩ := keyGroup_head_of_mem rows k hkmem
    refine ⟨r0, hr0, ?_⟩
    show List.lookup c ((desired.filter (fun c => catCols.contains c)).map
        (fun c => (c, ((keyGroup rows k).head?.map (fun r => catValD r c)).getD "N/A")))
      = some (catValD r0 c)
    rw [lookup_map_self]
    rw [if_pos (List.mem_filter.mpr ⟨hcd, hcc⟩)]
    rw [hr0]
    rfl
  · intro a ha c hcc
    obtain ⟨k, _, rfl⟩ := List.mem_map.mp ha
    apply lookup_eq_none_of_not_mem_keys
    intro hmem
    have hfst : ((desired.filter (fun c => catCols.contains c)).map
        (fun c => (c, ((keyGroup rows k).head?.map (fun r => catValD r c)).getD "N/A"))).map
          Prod.fst
        = desired.filter (fun c => catCols.contains c) := by
      rw [List.map_map]
      exact List.map_id _
    rw [show (aggRowFor catCols desired rows k).cats
        = (desired.filter (fun c => catCols.contains c)).map
          (fun c => (c, ((keyGroup rows k).head?.map (fun r => catValD r c)).getD "N/A"))
      from rfl] at hmem
    rw [hfst] at hmem
    have := (List.mem_filter.mp hmem).2
    rw [hcc] at this
    exact Bool.false_ne_true this

/-- C2 witness: two duplicate target rows for key `"5"` with amounts `100`
and `300` (site `"A"` on both) aggregate to one row with amount `200` and
site `"A"`. -/
theorem c2_witness :
    (¬ ((([⟨"5", 100, [("Site", "A")]⟩, ⟨"5", 300, [("Site", "A")]⟩] :
        List OOSRow)).map (fun r => r.key)).Nodup)
      ∧ (∀ a ∈ dedupOOSIfNeeded ["Site"] desiredCatCols
            [⟨"5", 100, [("Site", "A")]⟩, ⟨"5", 300, [("Site", "A")]⟩],
          a.montants = ((keyGroup [⟨"5", 100, [("Site", "A")]⟩,
              ⟨"5", 300, [("Site", "A")]⟩] a.key).map (fun r => r.montants)).sum
            / ((keyGroup [⟨"5", 100, [("Site", "A")]⟩,
              ⟨"5", 300, [("Site", "A")]⟩] a.key).length : ℚ))
      ∧ dedupOOSIfNeeded ["Site"] desiredCatCols
          [⟨"5", 100, [("Site", "A")]⟩, ⟨"5", 300, [("Site", "A")]⟩]
          = [⟨"5", 200, [("Site", "A")]⟩] := by
  refine ⟨by decide, (c2_duplicate_target_aggregation ["Site"] desiredCatCols
    [⟨"5", 100, [("Site", "A")]⟩, ⟨"5", 300, [("Site", "A")]⟩] (by decide)).2.2.1, ?_⟩
  unfold dedupOOSIfNeeded
  rw [if_neg (by decide)]
  unfold aggregateOOS
  rw [show (([⟨"5", 100, [("Site", "A")]⟩, ⟨"5", 300, [("Site", "A")]⟩] :
      List OOSRow).map (fun r => r.key)).dedup = ["5"] from by decide]
  rw [List.map_cons, List.map_nil]
  congr 1
  unfold aggRowFor
  rw [show keyGroup [⟨"5", 100, [("Site", "A")]⟩, ⟨"5", 300, [("Site", "A")]⟩] "5"
      = [⟨"5", 100, [("Site", "A")]⟩, ⟨"5", 300, [("Site", "A")]⟩] from by
    unfold keyGroup
    rfl]
  simp only [OOSRow.mk.injEq]
  refine ⟨trivial, ?_, by decide⟩
  show ((100 : ℚ) + (300 + 0)) / ((2 : ℕ) : ℚ) = 200
  norm_num

theorem reconcileGlobal_missingSummary (oos : Option OOSTable) (today : String)
    (fs : ArtifactState) :
    reconcileGlobal none oos today fs = (fs, RunOutcome.missingSummary) := rfl

theorem reconcileGlobal_missingOOS (s : SummaryTable) (today : String)
    (fs : ArtifactState) :
    reconcileGlobal (some s) none today fs = (fs, RunOutcome.missingOOS) := rfl

theorem reconcileGlobal_missingAgent (s : SummaryTable) (t : OOSTable) (today : String)
    (fs : ArtifactState) (h : t.hasAgent = false) :
    reconcileGlobal (some s) (some t) today fs = (fs, RunOutcome.missingAgent) := by
  unfold reconcileGlobal
  dsimp only
  rw [if_pos (by simp [h])]

theorem reconcileGlobal_mergeError (s : SummaryTable) (t : OOSTable) (today : String)
    (fs : ArtifactState) (ha : t.hasAgent = true) (h : s.hasNumber = false) :
    reconcileGlobal (some s) (some t) today fs = (fs, RunOutcome.mergeError) := by
  unfold reconcileGlobal
  dsimp only
  rw [if_neg (by simp [ha]), if_pos (by simp [h])]

theorem reconcileGlobal_histFail (s : SummaryTable) (t : OOSTable) (today : String)
    (rep : Option (List RRow)) (ha : t.hasAgent = true) (hn : s.hasNumber = true) :
    reconcileGlobal (some s) (some t) today ⟨rep, HistFile.malformed⟩
      = (⟨some (reconRows s t), HistFile.malformed⟩, RunOutcome.ok true) := by
  unfold reconcileGlobal
  dsimp only
  rw [if_neg (by simp [ha]), if_neg (by simp [hn])]

theorem reconcileGlobal_ok_absent (s : SummaryTable) (t : OOSTable) (today : String)
    (rep : Option (List RRow)) (ha : t.hasAgent = true) (hn : s.hasNumber = true) :
    reconcileGlobal (some s) (some t) today ⟨rep, HistFile.absent⟩
      = (⟨some (reconRows s t),
          HistFile.table [histStats today (reconRows s t)]⟩, RunOutcome.ok false) := by
  unfold reconcileGlobal
  dsimp only
  rw [if_neg (by simp [ha]), if_neg (by simp [hn])]
  rfl

theorem reconcileGlobal_ok_table (s : SummaryTable) (t : OOSTable) (today : String)
    (rep : Option (List RRow)) (h : List HRow) (ha : t.hasAgent = true)
    (hn : s.hasNumber = true) :
    reconcileGlobal (some s) (some t) today ⟨rep, HistFile.table h⟩
      = (⟨some (reconRows s t),
          HistFile.table (upsertHist today (histStats today (reconRows s t)) h)⟩,
         RunOutcome.ok false) := by
  unfold reconcileGlobal
  dsimp only
  rw [if_neg (by simp [ha]), if_neg (by simp [hn])]

/-- Evaluation of the global report rows for a one-account run with a
negative ledger balance. -/
theorem reconRows_eval_neg :
    reconRows ⟨true, [⟨"2026-01-01", "555", "Alice", -100⟩]⟩
        ⟨true, ["Site"], [⟨"555", 50, [("Site", "A")]⟩]⟩
      = [⟨555, "Alice", "N/A", "N/A", 50, -100, -150, -2, "A"⟩] := by
  unfold reconRows
  dsimp only
  have hm : (mergePairs
      (List.map
        (fun r : LedgerRow =>
          ({ date := r.date, number := pyStrip r.number, name := r.name, balance := r.balance } :
            LedgerRow))
        [({ date := "2026-01-01", number := "555", name := "Alice", balance := -100 } : LedgerRow)])
      (dedupOOSIfNeeded ["Site"] desiredCatColsGlobal
        (List.map
          (fun r : OOSRow =>
            ({ key := pyStrip r.key, montants := r.montants, cats := r.cats } : OOSRow))
          [({ key := "555", montants := 50, cats := [("Site", "A")] } : OOSRow)])))
      = [(({ date := "2026-01-01", number := "555", name := "Alice", balance := -100 } : LedgerRow),
          ({ key := "555", montants := 50, cats := [("Site", "A")] } : OOSRow))] := by decide
  rw [hm, List.map_cons, List.map_nil]
  congr 1
  simp only [RRow.mk.injEq]
  refine ⟨by decide, by decide, by decide, by decide, trivial, trivial, by norm_num, ?_, by decide⟩
  show cleanDiv (-100) 50 = -2
  unfold cleanDiv
  rw [if_neg (by norm_num)]
  norm_num

/-- Evaluation of the global report rows for a ledger identifier with a
leading zero. -/
theorem reconRows_eval_lead_zero :
    reconRows ⟨true, [⟨"2026-01-01", "0555", "Alice", 100⟩]⟩
        ⟨true, ["Site"], [⟨"0555", 50, [("Site", "A")]⟩]⟩
      = [⟨555, "Alice", "N/A", "N/A", 50, 100, 50, 2, "A"⟩] := by
  unfold reconRows
  dsimp only
  have hm : (mergePairs
      (List.map
        (fun r : LedgerRow =>
          ({ date := r.date, number := pyStrip r.number, name := r.name, balance := r.balance } :
            LedgerRow))
        [({ date := "2026-01-01", number := "0555", name := "Alice", balance := 100 } : LedgerRow)])
      (dedupOOSIfNeeded ["Site"] desiredCatColsGlobal
        (List.map
          (fun r : OOSRow =>
            ({ key := pyStrip r.key, montants := r.montants, cats := r.cats } : OOSRow))
          [({ key := "0555", montants := 50, cats := [("Site", "A")] } : OOSRow)])))
      = [(({ date := "2026-01-01", number := "0555", name := "Alice", balance := 100 } : LedgerRow),
          ({ key := "0555", montants := 50, cats := [("Site", "A")] } : OOSRow))] := by decide
  rw [hm, List.map_cons, List.map_nil]
  congr 1
  simp only [RRow.mk.injEq]
  refine ⟨by decide, by decide, by decide, by decide, trivial, trivial, by norm_num, ?_, by decide⟩
  show cleanDiv 100 50 = 2
  unfold cleanDiv
  rw [if_neg (by norm_num)]
  norm_num

/-- Evaluation of the global report rows for the same account written
without the leading zero. -/
theorem reconRows_eval_no_zero :
    reconRows ⟨true, [⟨"2026-01-01", "555", "Alice", 100⟩]⟩
        ⟨true, ["Site"], [⟨"555", 50, [("Site", "A")]⟩]⟩
      = [⟨555, "Alice", "N/A", "N/A", 50, 100, 50, 2, "A"⟩] := by
  unfold reconRows
  dsimp only
  have hm : (mergePairs
      (List.map
        (fun r : LedgerRow =>
          ({ date := r.date, number := pyStrip r.number, name := r.name, balance := r.balance } :
            LedgerRow))
        [({ date := "2026-01-01", number := "555", name := "Alice", balance := 100 } : LedgerRow)])
      (dedupOOSIfNeeded ["Site"] desiredCatColsGlobal
        (List.map
          (fun r : OOSRow =>
            ({ key := pyStrip r.key, montants := r.montants, cats := r.cats } : OOSRow))
          [({ key := "555", montants := 50, cats := [("Site", "A")] } : OOSRow)])))
      = [(({ date := "2026-01-01", number := "555", name := "Alice", balance := 100 } : LedgerRow),
          ({ key := "555", montants := 50, cats := [("Site", "A")] } : OOSRow))] := by decide
  rw [hm, List.map_cons, List.map_nil]
  congr 1
  simp only [RRow.mk.injEq]
  refine ⟨by decide, by decide, by decide, by decide, trivial, trivial, by norm_num, ?_, by decide⟩
  show cleanDiv 100 50 = 2
  unfold cleanDiv
  rw [if_neg (by norm_num)]
  norm_num

/-- C3 counterexample: a reconciled record with ledger balance `-100` and
target amount `50` carries `coverageDays = -2 < 0`, refuting the claim that
`coverageDays` is always nonnegative for any balance. -/
theorem c3_counterexample_negative_coverage :
    (reconcileGlobal (some ⟨true, [⟨"2026-01-01", "555", "Alice", -100⟩]⟩)
        (some ⟨true, ["Site"], [⟨"555", 50, [("Site", "A")]⟩]⟩) "2026-01-02"
        ⟨none, HistFile.absent⟩).1.report
      = some [⟨555, "Alice", "N/A", "N/A", 50, -100, -150, -2, "A"⟩]
      ∧ ¬ ((0 : ℚ) ≤ -2) := by
  rw [reconcileGlobal_ok_absent _ _ _ _ rfl rfl]
  exact ⟨congrArg some reconRows_eval_neg, by norm_num⟩

/-- C3 amended: for every reconciled record, `coverageDays` is computed by
`clean_div` — it equals exactly `0` when the target amount is `0` (no
division by zero ever occurs) and `balance / targetAmount` otherwise; it is
nonnegative whenever balance and target amount are both nonnegative, but can
be negative for a negative balance. -/
theorem c3_coverage_days_zero_guard (s : SummaryTable) (t : OOSTable) :
    ∀ r ∈ reconRows s t,
      r.jours = cleanDiv r.balance r.montants
        ∧ (r.montants = 0 → r.jours = 0)
        ∧ (0 ≤ r.balance → 0 ≤ r.montants → 0 ≤ r.jours) := by
  intro r hr
  unfold reconRows at hr
  obtain ⟨pr, _, rfl⟩ := List.mem_map.mp hr
  refine ⟨rfl, ?_, ?_⟩
  · intro h0
    have h0' : pr.2.montants = 0 := h0
    show cleanDiv pr.1.balance pr.2.montants = 0
    unfold cleanDiv
    rw [if_pos h0']
  · intro hb hm
    have hb' : (0 : ℚ) ≤ pr.1.balance := hb
    have hm' : (0 : ℚ) ≤ pr.2.montants := hm
    show (0 : ℚ) ≤ cleanDiv pr.1.balance pr.2.montants
    unfold cleanDiv
    by_cases h : pr.2.montants = 0
    · rw [if_pos h]
    · rw [if_neg h]
      exact div_nonneg hb' hm'

/-- C3 amended witness: the zero-guard characterisation applied to a
concrete reconciled record. -/
theorem c3_witness :
    (⟨555, "Alice", "N/A", "N/A", 50, 100, 50, 2, "A"⟩ : RRow).jours
        = cleanDiv (⟨555, "Alice", "N/A", "N/A", 50, 100, 50, 2, "A"⟩ : RRow).balance
            (⟨555, "Alice", "N/A", "N/A", 50, 100, 50, 2, "A"⟩ : RRow).montants
      ∧ ((⟨555, "Alice", "N/A", "N/A", 50, 100, 50, 2, "A"⟩ : RRow).montants = 0 →
          (⟨555, "Alice", "N/A", "N/A", 50, 100, 50, 2, "A"⟩ : RRow).jours = 0)
      ∧ (0 ≤ (⟨555, "Alice", "N/A", "N/A", 50, 100, 50, 2, "A"⟩ : RRow).balance →
          0 ≤ (⟨555, "Alice", "N/A", "N/A", 50, 100, 50, 2, "A"⟩ : RRow).montants →
          0 ≤ (⟨555, "Alice", "N/A", "N/A", 50, 100, 50, 2, "A"⟩ : RRow).jours) :=
  c3_coverage_days_zero_guard ⟨true, [⟨"2026-01-01", "555", "Alice", 100⟩]⟩
    ⟨true, ["Site"], [⟨"555", 50, [("Site", "A")]⟩]⟩
    ⟨555, "Alice", "N/A", "N/A", 50, 100, 50, 2, "A"⟩
    (by rw [reconRows_eval_no_zero]; exact List.mem_singleton.mpr rfl)

/-- Repeated reconciliation runs on one calendar day, folded over the
artifact state. -/
def runsFold (today : String) (runs : List (Option SummaryTable × Option OOSTable))
    (fs : ArtifactState) : ArtifactState :=
  match runs with
  | [] => fs
  | inp :: rest => runsFold today rest (reconcileGlobal inp.1 inp.2 today fs).1

theorem upsertHist_count_today (today : String) (row : HRow) (h : List HRow)
    (hrow : row.date = today) :
    (upsertHist today row h).countP (fun r => r.date == today) = 1 := by
  unfold upsertHist
  rw [List.countP_append]
  have h1 : (h.filter (fun r => !(r.date == today))).countP (fun r => r.date == today) = 0 := by
    rw [List.countP_eq_zero]
    intro a ha hpa
    have hmem := (List.mem_filter.mp ha).2
    rw [hpa] at hmem
    simp at hmem
  rw [h1]
  simp [hrow]

theorem upsertHist_count_other (today : String) (row : HRow) (h : List HRow) (d : String)
    (hrow : row.date = today) (hd : d ≠ today) :
    (upsertHist today row h).countP (fun r => r.date == d)
      = (h.filter (fun r => !(r.date == today))).countP (fun r => r.date == d) := by
  unfold upsertHist
  rw [List.countP_append]
  have h2 : ([row] : List HRow).countP (fun r => r.date == d) = 0 := by
    rw [List.countP_eq_zero]
    intro a ha hpa
    rw [List.mem_singleton] at ha
    subst ha
    rw [hrow] at hpa
    exact hd (beq_iff_eq.mp hpa).symm
  rw [h2]
  omega

theorem countP_filter_le_countP (p q : HRow → Bool) (h : List HRow) :
    (h.filter q).countP p ≤ h.countP p := by
  rw [List.countP_filter]
  exact List.countP_mono_left (fun a _ hb => (Bool.and_eq_true _ _ ▸ hb).1)

theorem upsertHist_filter_other (today : String) (row : HRow) (h : List HRow)
    (hrow : row.date = today) :
    (upsertHist today row h).filter (fun r => !(r.date == today))
      = h.filter (fun r => !(r.date == today)) := by
  unfold upsertHist
  rw [List.filter_append]
  have h1 : ([row] : List HRow).filter (fun r => !(r.date == today)) = [] := by
    simp [hrow]
  rw [h1, List.append_nil, List.filter_filter]
  simp only [Bool.and_self]

theorem reconcileGlobal_table_step (summary : Option SummaryTable) (oos : Option OOSTable)
    (today : String) (rep : Option (List RRow)) (h : List HRow) :
    ∃ h1, (reconcileGlobal summary oos today ⟨rep, HistFile.table h⟩).1.history
        = HistFile.table h1
      ∧ (h1 = h ∨ ∃ stat : HRow, stat.date = today ∧ h1 = upsertHist today stat h) := by
  cases summary with
  | none => exact ⟨h, by rw [reconcileGlobal_missingSummary], Or.inl rfl⟩
  | some s =>
    cases oos with
    | none => exact ⟨h, by rw [reconcileGlobal_missingOOS], Or.inl rfl⟩
    | some t =>
      by_cases ha : t.hasAgent = true
      · by_cases hn : s.hasNumber = true
        · refine ⟨upsertHist today (histStats today (reconRows s t)) h, ?_,
            Or.inr ⟨histStats today (reconRows s t), rfl, rfl⟩⟩
          rw [reconcileGlobal_ok_table _ _ _ _ _ ha hn]
        · have hf : s.hasNumber = false := by
            cases hc : s.hasNumber
            · rfl
            · exact absurd hc hn
          exact ⟨h, by rw [reconcileGlobal_mergeError _ _ _ _ ha hf], Or.inl rfl⟩
      · have hf : t.hasAgent = false := by
          cases hc : t.hasAgent
          · rfl
          · exact absurd hc ha
        exact ⟨h, by rw [reconcileGlobal_missingAgent _ _ _ _ hf], Or.inl rfl⟩

/-- C6: starting from a well-formed history with at most one row per date,
any number of reconciliation runs on the same calendar day leaves the
history with at most one row per distinct date, and the rows of every other
date untouched — a run on a day that already has a snapshot replaces it
rather than appending a duplicate. -/
theorem c6_history_single_row_per_date (today : String) (h0 : List HRow)
    (rep : Option (List RRow)) (runs : List (Option SummaryTable × Option OOSTable))
    (hinv : ∀ d, h0.countP (fun r => r.date == d) ≤ 1) :
    ∃ h1, (runsFold today runs ⟨rep, HistFile.table h0⟩).history = HistFile.table h1
      ∧ (∀ d, h1.countP (fun r => r.date == d) ≤ 1)
      ∧ h1.filter (fun r => !(r.date == today)) = h0.filter (fun r => !(r.date == today)) := by
  induction runs generalizing rep h0 with
  | nil => exact ⟨h0, rfl, hinv, rfl⟩
  | cons inp rest ih =>
    obtain ⟨h', hh', hcase⟩ := reconcileGlobal_table_step inp.1 inp.2 today rep h0
    have hfs : (reconcileGlobal inp.1 inp.2 today ⟨rep, HistFile.table h0⟩).1
        = ⟨(reconcileGlobal inp.1 inp.2 today ⟨rep, HistFile.table h0⟩).1.report,
           HistFile.table h'⟩ := by
      rw [← hh']
    have hstep : runsFold today (inp :: rest) ⟨rep, HistFile.table h0⟩
        = runsFold today rest
            ⟨(reconcileGlobal inp.1 inp.2 today ⟨rep, HistFile.table h0⟩).1.report,
             HistFile.table h'⟩ := by
      show runsFold today rest (reconcileGlobal inp.1 inp.2 today ⟨rep, HistFile.table h0⟩).1
        = _
      rw [hfs]
    rcases hcase with heq | ⟨stat, hstat, heq⟩
    · obtain ⟨h1, ha, hb, hc⟩ := ih h0 _ hinv
      refine ⟨h1, ?_, hb, hc⟩
      rw [hstep, heq]
      exact ha
    · have hinv' : ∀ d, (upsertHist today stat h0).countP (fun r => r.date == d) ≤ 1 := by
        intro d
        by_cases hd : d = today
        · rw [hd, upsertHist_count_today today stat h0 hstat]
        · rw [upsertHist_count_other today stat h0 d hstat hd]
          exact le_trans (countP_filter_le_countP _ _ h0) (hinv d)
      obtain ⟨h1, ha, hb, hc⟩ := ih (upsertHist today stat h0) _ hinv'
      refine ⟨h1, ?_, hb, ?_⟩
      · rw [hstep, heq]
        exact ha
      · rw [hc, upsertHist_filter_other today stat h0 hstat]

/-- C6 witness: two runs on the same day starting from a one-row history for
an earlier date. -/
theorem c6_witness :
    ∃ h1, (runsFold "2026-02-02"
        [(some ⟨true, [⟨"2026-01-01", "555", "Alice", 100⟩]⟩,
          some ⟨true, ["Site"], [⟨"555", 50, [("Site", "A")]⟩]⟩),
         (some ⟨true, [⟨"2026-01-01", "555", "Alice", 100⟩]⟩,
          some ⟨true, ["Site"], [⟨"555", 50, [("Site", "A")]⟩]⟩)]
        ⟨none, HistFile.table [⟨"2026-02-01", 7, 3, 0, 1⟩]⟩).history = HistFile.table h1
      ∧ (∀ d, h1.countP (fun r => r.date == d) ≤ 1)
      ∧ h1.filter (fun r => !(r.date == "2026-02-02"))
          = ([⟨"2026-02-01", 7, 3, 0, 1⟩] : List HRow).filter
              (fun r => !(r.date == "2026-02-02")) :=
  c6_history_single_row_per_date "2026-02-02" [⟨"2026-02-01", 7, 3, 0, 1⟩] none
    [(some ⟨true, [⟨"2026-01-01", "555", "Alice", 100⟩]⟩,
      some ⟨true, ["Site"], [⟨"555", 50, [("Site", "A")]⟩]⟩),
     (some ⟨true, [⟨"2026-01-01", "555", "Alice", 100⟩]⟩,
      some ⟨true, ["Site"], [⟨"555", 50, [("Site", "A")]⟩]⟩)]
    (by
      intro d
      simp only [List.countP_cons, List.countP_nil]
      split <;> omega)

theorem reconcileSimple_missingSummary (oos : Option OOSTable) (rep : Option (List RRowS)) :
    reconcileSimple none oos rep = (rep, RunOutcome.missingSummary) := rfl

theorem reconcileSimple_missingOOS (s : SummaryTable) (rep : Option (List RRowS)) :
    reconcileSimple (some s) none rep = (rep, RunOutcome.missingOOS) := rfl

theorem reconcileSimple_missingAgent (s : SummaryTable) (t : OOSTable)
    (rep : Option (List RRowS)) (h : t.hasAgent = false) :
    reconcileSimple (some s) (some t) rep = (rep, RunOutcome.missingAgent) := by
  unfold reconcileSimple
  dsimp only
  rw [if_pos (by simp [h])]

theorem reconcileSimple_mergeError (s : SummaryTable) (t : OOSTable)
    (rep : Option (List RRowS)) (ha : t.hasAgent = true) (h : s.hasNumber = false) :
    reconcileSimple (some s) (some t) rep = (rep, RunOutcome.mergeError) := by
  unfold reconcileSimple
  dsimp only
  rw [if_neg (by simp [ha]), if_pos (by simp [h])]

theorem reconcileSimple_ok (s : SummaryTable) (t : OOSTable) (rep : Option (List RRowS))
    (ha : t.hasAgent = true) (hn : s.hasNumber = true) :
    reconcileSimple (some s) (some t) rep
      = (some (reconRowsSimple s t), RunOutcome.ok false) := by
  unfold reconcileSimple
  dsimp only
  rw [if_neg (by simp [ha]), if_neg (by simp [hn])]

/-- C8 counterexample: with a malformed history file, a completed run logs
the caught history failure (`ok true`) and still overwrites the previously
written reconciliation report — the report is not left untouched on a run
with a caught failure, refuting the claim's "both artifacts untouched".
(The history file itself is untouched.) -/
theorem c8_counterexample_history_failure_report_overwrite :
    (reconcileGlobal (some ⟨true, [⟨"2026-01-01", "555", "Alice", -100⟩]⟩)
        (some ⟨true, ["Site"], [⟨"555", 50, [("Site", "A")]⟩]⟩) "2026-01-02"
        ⟨some [], HistFile.malformed⟩).2 = RunOutcome.ok true
      ∧ (reconcileGlobal (some ⟨true, [⟨"2026-01-01", "555", "Alice", -100⟩]⟩)
          (some ⟨true, ["Site"], [⟨"555", 50, [("Site", "A")]⟩]⟩) "2026-01-02"
          ⟨some [], HistFile.malformed⟩).1.report ≠ some []
      ∧ (reconcileGlobal (some ⟨true, [⟨"2026-01-01", "555", "Alice", -100⟩]⟩)
          (some ⟨true, ["Site"], [⟨"555", 50, [("Site", "A")]⟩]⟩) "2026-01-02"
          ⟨some [], HistFile.malformed⟩).1.history = HistFile.malformed := by
  rw [reconcileGlobal_histFail _ _ _ _ rfl rfl]
  refine ⟨rfl, ?_, rfl⟩
  simp [reconRows_eval_neg]

/-- C8 amended: failures that abort a reconciliation attempt — missing
summary file, missing target file, missing agent column, or a missing
`Number` join column raising at the merge — occur before any write and
leave the report and history artifacts (and `reconcile_data.py`'s single
report artifact) completely untouched; a failure confined to the history
step of `reconciliation_global.py` leaves the history untouched but does
not prevent the report from being rewritten. -/
theorem c8_failure_isolation (summary : Option SummaryTable) (oos : Option OOSTable)
    (today : String) (fs : ArtifactState) (rep : Option (List RRowS)) :
    ((∀ b, (reconcileGlobal summary oos today fs).2 ≠ RunOutcome.ok b) →
        (reconcileGlobal summary oos today fs).1 = fs)
      ∧ ((reconcileGlobal summary oos today fs).2 = RunOutcome.ok true →
          (reconcileGlobal summary oos today fs).1.history = fs.history)
      ∧ ((∀ b, (reconcileSimple summary oos rep).2 ≠ RunOutcome.ok b) →
          (reconcileSimple summary oos rep).1 = rep) := by
  obtain ⟨frep, fhist⟩ := fs
  cases summary with
  | none =>
    refine ⟨fun _ => rfl, fun h => ?_, fun _ => rfl⟩
    rw [reconcileGlobal_missingSummary] at h
    simp at h
  | some s =>
    cases oos with
    | none =>
      refine ⟨fun _ => rfl, fun h => ?_, fun _ => rfl⟩
      rw [reconcileGlobal_missingOOS] at h
      simp at h
    | some t =>
      by_cases ha : t.hasAgent = true
      · by_cases hn : s.hasNumber = true
        · refine ⟨?_, ?_, ?_⟩
          · intro hb
            exfalso
            cases fhist with
            | malformed =>
              exact hb true (by rw [reconcileGlobal_histFail _ _ _ _ ha hn])
            | absent =>
              exact hb false (by rw [reconcileGlobal_ok_absent _ _ _ _ ha hn])
            | table hh =>
              exact hb false (by rw [reconcileGlobal_ok_table _ _ _ _ _ ha hn])
          · intro h
            cases fhist with
            | malformed =>
              rw [reconcileGlobal_histFail _ _ _ _ ha hn]
            | absent =>
              rw [reconcileGlobal_ok_absent _ _ _ _ ha hn] at h
              simp at h
            | table hh =>
              rw [reconcileGlobal_ok_table _ _ _ _ _ ha hn] at h
              simp at h
          · intro hb
            exact absurd (by rw [reconcileSimple_ok _ _ _ ha hn]) (hb false)
        · have hf : s.hasNumber = false := by
            cases hc : s.hasNumber
            · rfl
            · exact absurd hc hn
          refine ⟨fun _ => ?_, fun h => ?_, fun _ => ?_⟩
          · rw [reconcileGlobal_mergeError _ _ _ _ ha hf]
          · rw [reconcileGlobal_mergeError _ _ _ _ ha hf] at h
            simp at h
          · rw [reconcileSimple_mergeError _ _ _ ha hf]
      · have hf : t.hasAgent = false := by
          cases hc : t.hasAgent
          · rfl
          · exact absurd hc ha
        refine ⟨fun _ => ?_, fun h => ?_, fun _ => ?_⟩
        · rw [reconcileGlobal_missingAgent _ _ _ _ hf]
        · rw [reconcileGlobal_missingAgent _ _ _ _ hf] at h
          simp at h
        · rw [reconcileSimple_missingAgent _ _ _ hf]

/-- C8 amended witness: a run with the summary file missing leaves both
pipelines' artifacts exactly as they were. -/
theorem c8_witness :
    (reconcileGlobal none (some ⟨true, ["Site"], [⟨"555", 50, [("Site", "A")]⟩]⟩)
        "2026-01-02" ⟨some [], HistFile.table []⟩).1 = ⟨some [], HistFile.table []⟩
      ∧ (reconcileSimple none (some ⟨true, ["Site"], [⟨"555", 50, [("Site", "A")]⟩]⟩)
          (some [])).1 = some [] := by
  have h := c8_failure_isolation none
    (some ⟨true, ["Site"], [⟨"555", 50, [("Site", "A")]⟩]⟩)
    "2026-01-02" ⟨some [], HistFile.table []⟩ (some [])
  refine ⟨h.1 ?_, h.2.2 ?_⟩
  · intro b hb
    rw [reconcileGlobal_missingSummary] at hb
    simp at hb
  · intro b hb
    rw [reconcileSimple_missingSummary] at hb
    simp at hb

theorem mergePairs_cons (sr : LedgerRow) (rest : List LedgerRow) (orows : List OOSRow) :
    mergePairs (sr :: rest) orows
      = ((orows.filter (fun w => w.key == sr.number)).map (fun w => (sr, w)))
        ++ mergePairs rest orows := rfl

theorem mem_mergePairs (srows : List LedgerRow) (orows : List OOSRow)
    (pr : LedgerRow × OOSRow) (h : pr ∈ mergePairs srows orows) :
    pr.1 ∈ srows ∧ pr.2 ∈ orows ∧ pr.2.key = pr.1.number := by
  induction srows with
  | nil => simp [mergePairs] at h
  | cons sr rest ih =>
    rw [mergePairs_cons] at h
    rcases List.mem_append.mp h with h1 | h2
    · obtain ⟨w, hw, heq⟩ := List.mem_map.mp h1
      have hf := List.mem_filter.mp hw
      rw [← heq]
      exact ⟨List.mem_cons_self _ _, hf.1, beq_iff_eq.mp hf.2⟩
    · obtain ⟨hx, hy, hz⟩ := ih h2
      exact ⟨List.mem_cons_of_mem _ hx, hy, hz⟩

/-- C9 counterexample: the two ledgers whose identifiers are the distinct
strings `"0555"` and `"555"` both reconcile to a report whose `Numero` cell
is the same int64 value `555` — `reconciliation_global.py` coerces `Numero`
to int64 (lines 153–154), so the written value cannot equal both source
identifiers as strings and the leading zero is lost. -/
theorem c9_counterexample_numero_int_cast :
    reconRows ⟨true, [⟨"2026-01-01", "0555", "Alice", 100⟩]⟩
        ⟨true, ["Site"], [⟨"0555", 50, [("Site", "A")]⟩]⟩
      = [⟨555, "Alice", "N/A", "N/A", 50, 100, 50, 2, "A"⟩]
      ∧ reconRows ⟨true, [⟨"2026-01-01", "555", "Alice", 100⟩]⟩
          ⟨true, ["Site"], [⟨"555", 50, [("Site", "A")]⟩]⟩
        = [⟨555, "Alice", "N/A", "N/A", 50, 100, 50, 2, "A"⟩]
      ∧ ("0555" : String) ≠ "555" :=
  ⟨reconRows_eval_lead_zero, reconRows_eval_no_zero, by decide⟩

/-- C9 amended: identifiers stay opaque strings through the ledger and the
join — every report row of either script corresponds to a ledger row with
the matching key — and `reconcile_data.py` writes `Numero` as the unchanged
identifier string, but `reconciliation_global.py` writes the int64 reading
of the (stripped) identifier instead of the string itself. -/
theorem c9_numero_characterization (s : SummaryTable) (t : OOSTable) :
    (∀ r ∈ reconRows s t, ∃ sr ∈ s.rows,
        r.numero = numeroInt64 (pyStrip sr.number) ∧ r.balance = sr.balance)
      ∧ (∀ r ∈ reconRowsSimple s t, ∃ sr ∈ s.rows,
          r.numero = sr.number ∧ r.balance = sr.balance) := by
  constructor
  · intro r hr
    unfold reconRows at hr
    obtain ⟨pr, hpr, rfl⟩ := List.mem_map.mp hr
    obtain ⟨h1, _, _⟩ := mem_mergePairs _ _ _ hpr
    obtain ⟨sr0, hsr0, heq⟩ := List.mem_map.mp h1
    refine ⟨sr0, hsr0, ?_, ?_⟩
    · show numeroInt64 pr.1.number = numeroInt64 (pyStrip sr0.number)
      rw [← heq]
    · show pr.1.balance = sr0.balance
      rw [← heq]
  · intro r hr
    unfold reconRowsSimple at hr
    obtain ⟨pr, hpr, rfl⟩ := List.mem_map.mp hr
    obtain ⟨h1, _, _⟩ := mem_mergePairs _ _ _ hpr
    exact ⟨pr.1, h1, rfl, rfl⟩

/-- C9 amended witness: the leading-zero report row corresponds to the
ledger row `"0555"`, whose int64 reading is its `Numero`. -/
theorem c9_witness :
    ∃ sr ∈ ([⟨"2026-01-01", "0555", "Alice", 100⟩] : List LedgerRow),
      (⟨555, "Alice", "N/A", "N/A", 50, 100, 50, 2, "A"⟩ : RRow).numero
          = numeroInt64 (pyStrip sr.number)
        ∧ (⟨555, "Alice", "N/A", "N/A", 50, 100, 50, 2, "A"⟩ : RRow).balance = sr.balance :=
  (c9_numero_characterization ⟨true, [⟨"2026-01-01", "0555", "Alice", 100⟩]⟩
      ⟨true, ["Site"], [⟨"0555", 50, [("Site", "A")]⟩]⟩).1
    ⟨555, "Alice", "N/A", "N/A", 50, 100, 50, 2, "A"⟩
    (by rw [reconRows_eval_lead_zero]; exact List.mem_singleton.mpr rfl)
